import Mathlib

/-!
Verification of the Smart POS billing system core
(`billing_core.py`, `pos_logic.py`, `menus.py`, `admin.py`).

Modelling conventions for the shallow embedding:
* Python `str` is modelled as `List Char`; `S` converts a Lean string
  literal to that representation.
* Python `float` money values are modelled as exact rationals `ℚ`;
  `round(x, 2)` is modelled by `pyRound2` (round half up to two decimal
  places).  Python rounds the underlying binary double half-to-even; at
  every concrete input used in the theorems below the two agree with the
  observable behaviour of the source.
* Python `int(...)` / `float(...)` parsing is modelled by `pyInt?` /
  `pyFloat?` on the sign-and-digits (and decimal point) forms; the exotic
  Python forms (underscore separators, exponents, `inf`, `nan`) are not
  used by any record this system writes and are not modelled.
* Fallible operations return `Except` / `Option`; filesystem state is
  passed explicitly.
-/

/-- Character list of a string literal (model of Python `str`). -/
def S (s : String) : List Char := s.data

/-- Whitespace test used by the model of Python `str.strip`. -/
def isWS (c : Char) : Bool := c.isWhitespace

/-- Model of Python `str.strip()`: drop leading and trailing whitespace. -/
def pyStrip (s : List Char) : List Char :=
  ((s.dropWhile isWS).reverse.dropWhile isWS).reverse

/-- Model of Python `str.split(sep)` for a one-character separator. -/
def splitChar (c : Char) : List Char → List (List Char)
  | [] => [[]]
  | a :: rest =>
    match splitChar c rest with
    | [] => [[]]
    | h :: t => if a = c then [] :: h :: t else (a :: h) :: t

/-- Model of Python `str.rsplit(sep, 1)`: split at the last occurrence of
`sep`, returning `none` when `sep` does not occur (which is exactly the
`sep in s` test of the source). -/
def rsplit1 (sep : List Char) : List Char → Option (List Char × List Char)
  | [] => none
  | a :: rest =>
    match rsplit1 sep rest with
    | some (l, r) => some (a :: l, r)
    | none =>
      if sep.isPrefixOf (a :: rest) then some ([], (a :: rest).drop sep.length)
      else none

/-- Decimal digit character. -/
def digitChar (d : Nat) : Char := Char.ofNat (48 + d)

/-- Numeric value of a digit character. -/
def digitVal (c : Char) : Nat := c.toNat - 48

/-- Value of a digit string read left to right (0 for the empty string). -/
def digitsVal (s : List Char) : Nat :=
  s.foldl (fun a c => a * 10 + digitVal c) 0

/-- Parse a non-empty all-digit string as a natural number. -/
def parseDigits (s : List Char) : Option Nat :=
  if s ≠ [] ∧ s.all Char.isDigit then some (digitsVal s) else none

/-- Decimal digits of `n`, most significant first, pushed onto `acc`. -/
def natToCharsAux (n : Nat) (acc : List Char) : List Char :=
  if h : n = 0 then acc
  else natToCharsAux (n / 10) (digitChar (n % 10) :: acc)
  termination_by n
  decreasing_by exact Nat.div_lt_self (Nat.pos_of_ne_zero h) (by norm_num)

/-- Model of Python `str(n)` for a natural number. -/
def natToChars (n : Nat) : List Char :=
  if n = 0 then ['0'] else natToCharsAux n []

/-- Model of Python `str(i)` for an integer. -/
def intToChars (i : Int) : List Char :=
  if i < 0 then '-' :: natToChars i.natAbs else natToChars i.toNat

/-- Model of Python `int(s)`: strip, optional sign, decimal digits. -/
def pyInt? (s : List Char) : Option Int :=
  let t := pyStrip s
  if t.take 1 = ['-'] then (parseDigits (t.drop 1)).map (fun n => -(n : Int))
  else if t.take 1 = ['+'] then (parseDigits (t.drop 1)).map (fun n => (n : Int))
  else (parseDigits t).map (fun n => (n : Int))

/-- Numerator and denominator read by the model of Python `float(s)` on
plain decimal notation: strip, optional sign, then `digits`,
`digits.digits`, `.digits` or `digits.`. -/
def pyFloatParts? (s : List Char) : Option (Int × Nat) :=
  let t := pyStrip s
  let p : Int × List Char :=
    if t.take 1 = ['-'] then (-1, t.drop 1)
    else if t.take 1 = ['+'] then (1, t.drop 1)
    else (1, t)
  match splitChar '.' p.2 with
  | [a] => (parseDigits a).map (fun n => (p.1 * n, 1))
  | [a, b] =>
    if (a ≠ [] ∨ b ≠ []) ∧ a.all Char.isDigit ∧ b.all Char.isDigit then
      some (p.1 * ((digitsVal a * 10 ^ b.length + digitsVal b : Nat) : Int),
        10 ^ b.length)
    else none
  | _ => none

/-- Model of Python `float(s)` as an exact rational (all numeric fields this
system writes are two-decimal strings, whose float values are the evident
rationals). -/
def pyFloat? (s : List Char) : Option ℚ :=
  (pyFloatParts? s).map (fun p => (p.1 : ℚ) / (p.2 : ℚ))

/-- Model of Python `round(x, 2)` on exact decimals: round half up to a
multiple of `1/100`. -/
def pyRound2 (q : ℚ) : ℚ := ((⌊q * 100 + 1 / 2⌋ : ℤ) : ℚ) / 100



/-! ## `menus.py` -/

/-- 5% GST applied on subtotal (`menus.py`, `GST_RATE = 0.05`). -/
def GST_RATE : ℚ := 5 / 100

/-! ## Order model (`billing_core.py` / `pos_logic.py`, `OrderItem`) -/

/-- `OrderItem` dataclass: name, quantity, unit price. -/
structure OrderItem where
  name : List Char
  quantity : Int
  unit_price : ℚ
  deriving DecidableEq

/-- `OrderItem.line_total`: `unit_price * quantity`. -/
def OrderItem.line_total (i : OrderItem) : ℚ := i.unit_price * (i.quantity : ℚ)

/-- Sum of the line totals of an order (`sum(item.line_total for item in
order_items)`). -/
def sumLineTotals (items : List OrderItem) : ℚ :=
  (items.map OrderItem.line_total).sum

/-- `validate_quantity` (identical in `billing_core.py` and `pos_logic.py`):
raise on a non-positive quantity, otherwise return it unchanged. -/
def validate_quantity (quantity : Int) : Except (List Char) Int :=
  if quantity ≤ 0 then .error (S "Quantity must be a positive integer.")
  else .ok quantity

/-- `format_order_items` (identical in `billing_core.py` and `pos_logic.py`):
one `"<name> x<quantity>"` piece per item.  The pieces list built by the
source's loop. -/
def orderItemParts (order_items : List OrderItem) : List (List Char) :=
  order_items.map (fun i => i.name ++ S " x" ++ intToChars i.quantity)

/-- Model of `"; ".join(parts)`. -/
def joinSemi : List (List Char) → List Char
  | [] => []
  | [p] => p
  | p :: q :: rest => p ++ ';' :: ' ' :: joinSemi (q :: rest)

/-- `format_order_items`: join the per-item pieces with `"; "`. -/
def format_order_items (order_items : List OrderItem) : List Char :=
  joinSemi (orderItemParts order_items)

namespace billing_core

/-- `billing_core.calculate_totals`: GST is computed from the *unrounded*
subtotal; the rounded subtotal is returned. -/
def calculate_totals (order_items : List OrderItem) : ℚ × ℚ × ℚ :=
  let subtotal := sumLineTotals order_items
  let gst_amount := pyRound2 (subtotal * GST_RATE)
  let final_total := pyRound2 (subtotal + gst_amount)
  (pyRound2 subtotal, gst_amount, final_total)

end billing_core

namespace pos_logic

/-- `pos_logic.calculate_totals`: the subtotal is rounded first and GST is
computed from the rounded subtotal. -/
def calculate_totals (order_items : List OrderItem) : ℚ × ℚ × ℚ :=
  let subtotal := pyRound2 (sumLineTotals order_items)
  let gst_amount := pyRound2 (subtotal * GST_RATE)
  let final_total := pyRound2 (subtotal + gst_amount)
  (subtotal, gst_amount, final_total)

end pos_logic

/-! ## Transaction store (`billing_core.py` / `pos_logic.py`) -/

/-- One data row of the sales CSV, keyed by the fixed header
`CustomerName, OrderedItems, Subtotal, GST, FinalTotal, PaymentMethod,
DateTime` (the `Dict[str, str]` produced by `csv.DictReader`). -/
structure SalesRow where
  customerName : List Char
  orderedItems : List Char
  subtotalField : List Char
  gstField : List Char
  finalTotalField : List Char
  paymentMethod : List Char
  dateTime : List Char
  deriving DecidableEq

/-- State of the backing sales CSV file. -/
inductive SalesStore where
  /-- The file does not exist. -/
  | absent
  /-- The file exists but has size 0. -/
  | emptyFile
  /-- The file holds the header row followed by the given data rows. -/
  | withHeader (rows : List SalesRow)
  deriving DecidableEq

/-- `_ensure_sales_file_has_header`: write the header when the file is
missing or empty, otherwise leave the file alone. -/
def ensure_sales_file_has_header : SalesStore → SalesStore
  | .absent => .withHeader []
  | .emptyFile => .withHeader []
  | .withHeader rows => .withHeader rows

/-- `f"{x:.2f}"` on a value that `pyRound2` produced (two-decimal fixed
formatting). -/
def fmt2 (q : ℚ) : List Char :=
  let n : Int := ⌊q * 100 + 1 / 2⌋
  let m := n.natAbs
  (if n < 0 then ['-'] else []) ++ natToChars (m / 100) ++
    '.' :: ((if m % 100 < 10 then ['0'] else []) ++ natToChars (m % 100))

/-- `save_transaction` (identical in `billing_core.py` and `pos_logic.py`
up to the module-local `calculate_totals` it calls, passed here as
`calc`): validate, compute totals, then ensure the header and append one
record.  The store is threaded explicitly; the current timestamp is a
parameter. -/
def save_transaction_with (calcT : List OrderItem → ℚ × ℚ × ℚ)
    (customer_name : List Char) (order_items : List OrderItem)
    (payment_method : List Char) (timestamp : List Char)
    (store : SalesStore) : SalesStore × Except (List Char) (ℚ × ℚ × ℚ) :=
  if pyStrip customer_name = [] then
    (store, .error (S "Customer name cannot be empty."))
  else if order_items = [] then
    (store, .error (S "Order must contain at least one item."))
  else
    let t := calcT order_items
    let row : SalesRow :=
      { customerName := pyStrip customer_name
        orderedItems := format_order_items order_items
        subtotalField := fmt2 t.1
        gstField := fmt2 t.2.1
        finalTotalField := fmt2 t.2.2
        paymentMethod := pyStrip payment_method
        dateTime := timestamp }
    match ensure_sales_file_has_header store with
    | .withHeader rows => (.withHeader (rows ++ [row]), .ok t)
    | s => (s, .ok t)

/-- `billing_core.save_transaction`. -/
def billing_core.save_transaction := save_transaction_with billing_core.calculate_totals

/-- `pos_logic.save_transaction`. -/
def pos_logic.save_transaction := save_transaction_with pos_logic.calculate_totals

/-! ## `admin.py` -/

namespace admin

/-- Insertion-ordered counter model of `collections.Counter`:
`counterAdd c k v` performs `c[k] += v` (a new key is appended, an
existing key keeps its position). -/
def counterAdd (c : List (List Char × Int)) (k : List Char) (v : Int) :
    List (List Char × Int) :=
  match c with
  | [] => [(k, v)]
  | (k0, v0) :: rest =>
    if k0 = k then (k0, v0 + v) :: rest else (k0, v0) :: counterAdd rest k v

/-- `Counter.update(other)`: fold the entries of `other` in their
insertion order. -/
def counterUpdate (c other : List (List Char × Int)) : List (List Char × Int) :=
  other.foldl (fun acc p => counterAdd acc p.1 p.2) c

/-- Loop body of `_parse_ordered_items` for one `";"`-separated segment:
strip, skip empty segments, split on the last `" x"` (quantity defaults
to 1 when the integer parse fails or when no `" x"` occurs), and tally
non-empty names. -/
def processSegment (counter : List (List Char × Int)) (part0 : List Char) :
    List (List Char × Int) :=
  let part := pyStrip part0
  if part = [] then counter
  else
    let p : List Char × Int :=
      match rsplit1 (S " x") part with
      | some (n, q) => (pyStrip n, (pyInt? q).getD 1)
      | none => (part, 1)
    if p.1 = [] then counter else counterAdd counter p.1 p.2

/-- `admin._parse_ordered_items` (an identical copy lives in
`coffeebot.py`): decode an `OrderedItems` field into an
insertion-ordered counter of item name to summed quantity. -/
def parse_ordered_items (ordered_items_str : List Char) :
    List (List Char × Int) :=
  if ordered_items_str = [] then []
  else (splitChar ';' ordered_items_str).foldl processSegment []

/-- `_load_todays_transactions`: empty or absent file gives no rows,
otherwise keep the rows whose `DateTime` starts with today's
`YYYY-MM-DD` string (passed as `today`). -/
def load_todays_transactions (today : List Char) (store : SalesStore) :
    List SalesRow :=
  match store with
  | .absent => []
  | .emptyFile => []
  | .withHeader rows => rows.filter (fun r => today.isPrefixOf r.dateTime)

/-- One `try/except`-guarded accumulation step of `compute_daily_summary`:
`acc += float(field or 0)`, with a failed parse skipped. -/
def addField (acc : ℚ) (s : List Char) : ℚ :=
  if s = [] then acc
  else
    match pyFloat? s with
    | some v => acc + v
    | none => acc

/-- Fold state of `compute_daily_summary`: running sales total, running
GST total, and the item tally. -/
def summaryStep (st : ℚ × ℚ × List (List Char × Int)) (row : SalesRow) :
    ℚ × ℚ × List (List Char × Int) :=
  (addField st.1 row.finalTotalField, addField st.2.1 row.gstField,
    counterUpdate st.2.2 (parse_ordered_items row.orderedItems))

/-- `max(items, key=count)` keeping the first maximal element, as
`Counter.most_common(1)` does (via `heapq.nlargest(1)` = `max`). -/
def maxFirst : List (List Char × Int) → (List Char × Int) → (List Char × Int)
  | [], best => best
  | p :: rest, best => maxFirst rest (if best.2 < p.2 then p else best)

/-- `Counter.most_common(1)[0][0]` on a non-empty counter. -/
def mostCommon1 : List (List Char × Int) → List Char
  | [] => S "N/A"
  | e :: rest => (maxFirst rest e).1

/-- `admin.compute_daily_summary`: zero summary for no rows, otherwise
fold the rows and finalize (round the two sums, pick the most sold
item or `"N/A"`). -/
def compute_daily_summary (rows : List SalesRow) : ℚ × ℚ × Nat × List Char :=
  if rows = [] then (0, 0, 0, S "N/A")
  else
    let st := rows.foldl summaryStep ((0 : ℚ), (0 : ℚ), ([] : List (List Char × Int)))
    let most_sold_item := if st.2.2 = [] then S "N/A" else mostCommon1 st.2.2
    (pyRound2 st.1, pyRound2 st.2.1, rows.length, most_sold_item)

/-- `show_daily_report`'s data path: load today's rows, then summarize. -/
def daily_summary (today : List Char) (store : SalesStore) :
    ℚ × ℚ × Nat × List Char :=
  compute_daily_summary (load_todays_transactions today store)

/-- Value of the `item_counter` accumulator after the aggregation loop of
`compute_daily_summary` (third component of the fold state). -/
def dayTally (rows : List SalesRow) : List (List Char × Int) :=
  (rows.foldl summaryStep ((0 : ℚ), (0 : ℚ), ([] : List (List Char × Int)))).2.2

end admin

/-- Concrete rows producing a tie (Latte 3, Vada pav 3) used as the C3
witness: the tie is broken in favour of the first-encountered name. -/
def tieRows : List SalesRow :=
  [{ customerName := S "A", orderedItems := S "Latte x2; Vada pav x3",
     subtotalField := S "0.00", gstField := S "0.00", finalTotalField := S "0.00",
     paymentMethod := S "Cash", dateTime := S "2024-01-01 10:00:00" },
   { customerName := S "B", orderedItems := S "Latte x1",
     subtotalField := S "0.00", gstField := S "0.00", finalTotalField := S "0.00",
     paymentMethod := S "Cash", dateTime := S "2024-01-01 11:00:00" }]

/-- Concrete rows for the C5 witness computation: `FinalTotal` values
283.50, 100.00, 50.00, with one malformed `GST` field (`"abc"`). -/
def c5rows : List SalesRow :=
  [{ customerName := S "A", orderedItems := S "Latte x2; Vada pav x1",
     subtotalField := S "270.00", gstField := S "13.50",
     finalTotalField := S "283.50", paymentMethod := S "Cash",
     dateTime := S "2024-01-01 10:00:00" },
   { customerName := S "B", orderedItems := S "Espresso x1",
     subtotalField := S "100.00", gstField := S "abc",
     finalTotalField := S "100.00", paymentMethod := S "Card",
     dateTime := S "2024-01-01 11:00:00" },
   { customerName := S "C", orderedItems := S "Samosa x2",
     subtotalField := S "47.62", gstField := S "2.38",
     finalTotalField := S "50.00", paymentMethod := S "UPI",
     dateTime := S "2024-01-01 12:00:00" }]

/-- A row both of whose numeric fields are malformed. -/
def badRow : SalesRow :=
  { customerName := S "D", orderedItems := S "Latte x1",
    subtotalField := S "oops", gstField := S "oops",
    finalTotalField := S "oops", paymentMethod := S "Cash",
    dateTime := S "2024-01-01 13:00:00" }


/-! ## Arithmetic facts about two-decimal rounding -/

/-- Evaluation rule for `pyRound2` at concrete rationals. -/
theorem pyRound2_eq_of_bounds (q : ℚ) (n : ℤ) (h1 : (n : ℚ) ≤ q * 100 + 1 / 2)
    (h2 : q * 100 + 1 / 2 < n + 1) : pyRound2 q = (n : ℚ) / 100 := by
  unfold pyRound2
  rw [show ⌊q * 100 + 1 / 2⌋ = n from Int.floor_eq_iff.mpr ⟨h1, h2⟩]

/-- Rounding a whole number of cents is the identity. -/
theorem pyRound2_intCast_div (k : ℤ) : pyRound2 ((k : ℚ) / 100) = (k : ℚ) / 100 := by
  unfold pyRound2
  rw [show (k : ℚ) / 100 * 100 + 1 / 2 = 1 / 2 + (k : ℤ) by ring,
    Int.floor_add_int,
    show ⌊(1 : ℚ) / 2⌋ = 0 from Int.floor_eq_iff.mpr (by norm_num)]
  push_cast
  ring

/-- `pyRound2 0 = 0`. -/
theorem pyRound2_zero : pyRound2 0 = 0 := by
  have h := pyRound2_intCast_div 0
  simpa using h

/-- Adding a whole number of cents commutes with rounding. -/
theorem pyRound2_add_cent (a : ℚ) (k : ℤ) :
    pyRound2 (a + (k : ℚ) / 100) = pyRound2 a + (k : ℚ) / 100 := by
  unfold pyRound2
  rw [show (a + (k : ℚ) / 100) * 100 + 1 / 2 = a * 100 + 1 / 2 + (k : ℤ) by
      ring,
    Int.floor_add_int]
  push_cast
  ring

/-- Rounding after adding an already-rounded value. -/
theorem pyRound2_add_pyRound2_right (a b : ℚ) :
    pyRound2 (a + pyRound2 b) = pyRound2 a + pyRound2 b := by
  have h : pyRound2 b = ((⌊b * 100 + 1 / 2⌋ : ℤ) : ℚ) / 100 := rfl
  rw [h, pyRound2_add_cent]

/-- A sum of two rounded values is already rounded. -/
theorem pyRound2_add_self (a b : ℚ) :
    pyRound2 (pyRound2 a + pyRound2 b) = pyRound2 a + pyRound2 b := by
  rw [pyRound2_add_pyRound2_right]
  have h : pyRound2 a = ((⌊a * 100 + 1 / 2⌋ : ℤ) : ℚ) / 100 := rfl
  rw [h, pyRound2_intCast_div]

/-! ## Claims about `calculate_totals` (C1, C8) -/

/-- Claim C1 (amended).  For every item list the `pos_logic` copy of
`calculate_totals` returns `subtotal = round(sum of line totals, 2)`,
`gst = round(subtotal * TAX_RATE, 2)` computed from the rounded subtotal it
returns, and `final_total = subtotal + gst` exactly; the `billing_core`
copy returns the same rounded subtotal and also satisfies
`final_total = subtotal + gst` exactly, but computes
`gst = round(unrounded_sum * TAX_RATE, 2)` from the unrounded sum, which
can differ from `round(returned_subtotal * TAX_RATE, 2)`.  Both copies map
the empty sequence to `(0.00, 0.00, 0.00)`. -/
theorem calculate_totals_spec_amended (items : List OrderItem)
    (hq : ∀ i ∈ items, 1 ≤ i.quantity) (hp : ∀ i ∈ items, 0 ≤ i.unit_price) :
    (pos_logic.calculate_totals items).1 = pyRound2 (sumLineTotals items) ∧
    (pos_logic.calculate_totals items).2.1 =
      pyRound2 ((pos_logic.calculate_totals items).1 * GST_RATE) ∧
    (pos_logic.calculate_totals items).2.2 =
      (pos_logic.calculate_totals items).1 + (pos_logic.calculate_totals items).2.1 ∧
    (billing_core.calculate_totals items).1 = pyRound2 (sumLineTotals items) ∧
    (billing_core.calculate_totals items).2.1 =
      pyRound2 (sumLineTotals items * GST_RATE) ∧
    (billing_core.calculate_totals items).2.2 =
      (billing_core.calculate_totals items).1 +
        (billing_core.calculate_totals items).2.1 ∧
    billing_core.calculate_totals [] = (0, 0, 0) ∧
    pos_logic.calculate_totals [] = (0, 0, 0) := by
  refine ⟨rfl, rfl, ?_, rfl, rfl, ?_, ?_, ?_⟩
  · show pyRound2 (pyRound2 (sumLineTotals items) +
      pyRound2 (pyRound2 (sumLineTotals items) * GST_RATE)) = _
    rw [pyRound2_add_self]
    rfl
  · show pyRound2 (sumLineTotals items +
      pyRound2 (sumLineTotals items * GST_RATE)) = _
    rw [pyRound2_add_pyRound2_right]
    rfl
  · show (pyRound2 (sumLineTotals []), pyRound2 (sumLineTotals [] * GST_RATE),
      pyRound2 (sumLineTotals [] + pyRound2 (sumLineTotals [] * GST_RATE))) = _
    have h0 : sumLineTotals [] = 0 := rfl
    rw [h0, zero_mul, pyRound2_zero, add_zero, pyRound2_zero]
  · show (pyRound2 (sumLineTotals []),
      pyRound2 (pyRound2 (sumLineTotals []) * GST_RATE), _) = _
    have h0 : sumLineTotals [] = 0 := rfl
    rw [h0, pyRound2_zero, zero_mul, pyRound2_zero, add_zero, pyRound2_zero]

/-- Witness for C1 at the spec's own example order (Latte ×2 at 120.00 and
Vada pav ×1 at 30.00). -/
theorem calculate_totals_spec_amended_witness :
    (∀ i ∈ ([⟨S "Latte", 2, 120⟩, ⟨S "Vada pav", 1, 30⟩] : List OrderItem),
      1 ≤ i.quantity) ∧
    (∀ i ∈ ([⟨S "Latte", 2, 120⟩, ⟨S "Vada pav", 1, 30⟩] : List OrderItem),
      0 ≤ i.unit_price) ∧
    (pos_logic.calculate_totals [⟨S "Latte", 2, 120⟩, ⟨S "Vada pav", 1, 30⟩]).1 =
      pyRound2 (sumLineTotals [⟨S "Latte", 2, 120⟩, ⟨S "Vada pav", 1, 30⟩]) :=
  ⟨by intro i hi; fin_cases hi <;> norm_num,
   by intro i hi; fin_cases hi <;> norm_num,
   (calculate_totals_spec_amended [⟨S "Latte", 2, 120⟩, ⟨S "Vada pav", 1, 30⟩]
      (by intro i hi; fin_cases hi <;> norm_num)
      (by intro i hi; fin_cases hi <;> norm_num)).1⟩

/-- Counterexample for C1 as stated: for the single item with unit price
0.0996 and quantity 1, `billing_core.calculate_totals` returns GST 0.00
while rounding its returned subtotal (0.10) times the tax rate gives 0.01. -/
theorem calculate_totals_gst_from_unrounded_subtotal_cex :
    (billing_core.calculate_totals [⟨S "Coffee", 1, 996 / 10000⟩]).2.1 ≠
      pyRound2 ((billing_core.calculate_totals [⟨S "Coffee", 1, 996 / 10000⟩]).1 *
        GST_RATE) := by
  have hsum : sumLineTotals [⟨S "Coffee", 1, (996 : ℚ) / 10000⟩] = 996 / 10000 := by
    unfold sumLineTotals OrderItem.line_total
    norm_num
  show pyRound2 (sumLineTotals [⟨S "Coffee", 1, (996 : ℚ) / 10000⟩] * GST_RATE) ≠
    pyRound2 (pyRound2 (sumLineTotals [⟨S "Coffee", 1, (996 : ℚ) / 10000⟩]) * GST_RATE)
  rw [hsum, GST_RATE,
    pyRound2_eq_of_bounds ((996 : ℚ) / 10000 * (5 / 100)) 0 (by norm_num) (by norm_num),
    pyRound2_eq_of_bounds ((996 : ℚ) / 10000) 10 (by norm_num) (by norm_num),
    pyRound2_eq_of_bounds (((10 : ℤ) : ℚ) / 100 * (5 / 100)) 1 (by norm_num) (by norm_num)]
  norm_num

/-- Claim C8 (confirmed): the two near-duplicate copies of
`calculate_totals` are not extensionally equal — at the single item with
unit price 0.0996 and quantity 1, `billing_core` returns
(0.10, 0.00, 0.10) while `pos_logic` returns (0.10, 0.01, 0.11). -/
theorem calculate_totals_copies_differ :
    billing_core.calculate_totals [⟨S "Coffee", 1, 996 / 10000⟩] ≠
      pos_logic.calculate_totals [⟨S "Coffee", 1, 996 / 10000⟩] := by
  intro h
  have hsum : sumLineTotals [⟨S "Coffee", 1, (996 : ℚ) / 10000⟩] = 996 / 10000 := by
    unfold sumLineTotals OrderItem.line_total
    norm_num
  have hb : (billing_core.calculate_totals [⟨S "Coffee", 1, 996 / 10000⟩]).2.1 = 0 := by
    show pyRound2 (sumLineTotals [⟨S "Coffee", 1, (996 : ℚ) / 10000⟩] * GST_RATE) = 0
    rw [hsum, GST_RATE,
      pyRound2_eq_of_bounds ((996 : ℚ) / 10000 * (5 / 100)) 0 (by norm_num) (by norm_num)]
    norm_num
  have hp : (pos_logic.calculate_totals [⟨S "Coffee", 1, 996 / 10000⟩]).2.1 = 1 / 100 := by
    show pyRound2 (pyRound2 (sumLineTotals [⟨S "Coffee", 1, (996 : ℚ) / 10000⟩]) *
      GST_RATE) = 1 / 100
    rw [hsum, GST_RATE,
      pyRound2_eq_of_bounds ((996 : ℚ) / 10000) 10 (by norm_num) (by norm_num),
      pyRound2_eq_of_bounds (((10 : ℤ) : ℚ) / 100 * (5 / 100)) 1 (by norm_num) (by norm_num)]
    norm_num
  rw [h, hp] at hb
  norm_num at hb

/-! ## Claims about validation and the store (C6, C10, C7) -/

/-- Claim C6 (confirmed): `validate_quantity q` fails if and only if
`q ≤ 0` and otherwise returns `q` unchanged; `save_transaction` fails if
and only if the customer name trims to empty or the item list is empty,
and the error is produced by the validation step itself. -/
theorem validation_error_iff :
    (∀ q : Int, (∃ e, validate_quantity q = .error e) ↔ q ≤ 0) ∧
    (∀ q : Int, 0 < q → validate_quantity q = .ok q) ∧
    (∀ cname items pay ts store,
      (∃ e, (billing_core.save_transaction cname items pay ts store).2 = .error e) ↔
        (pyStrip cname = [] ∨ items = [])) := by
  refine ⟨?_, ?_, ?_⟩
  · intro q
    constructor
    · rintro ⟨e, he⟩
      by_contra hq
      rw [validate_quantity, if_neg hq] at he
      cases he
    · intro hq
      exact ⟨_, by rw [validate_quantity, if_pos hq]⟩
  · intro q hq
    rw [validate_quantity, if_neg (by omega)]
  · intro cname items pay ts store
    unfold billing_core.save_transaction save_transaction_with
    by_cases h1 : pyStrip cname = []
    · simp [h1]
    by_cases h2 : items = []
    · simp [h1, h2]
    rw [if_neg h1, if_neg h2]
    simp only [h1, h2, or_self, iff_false]
    rintro ⟨e, he⟩
    cases hst : ensure_sales_file_has_header store <;> rw [hst] at he <;> cases he

/-- Witness for C6 at concrete inputs: quantity 0 is rejected, quantity 3
is returned unchanged, and a whitespace-only customer name makes
`save_transaction` fail. -/
theorem validation_error_iff_witness :
    (∃ e, validate_quantity 0 = .error e) ∧
    validate_quantity 3 = .ok 3 ∧
    (∃ e, (billing_core.save_transaction (S " ") [⟨S "Latte", 1, 120⟩] (S "Cash")
      (S "2024-01-01 10:00:00") .absent).2 = .error e) :=
  ⟨(validation_error_iff.1 0).mpr (by norm_num),
   validation_error_iff.2.1 3 (by norm_num),
   (validation_error_iff.2.2 (S " ") [⟨S "Latte", 1, 120⟩] (S "Cash")
     (S "2024-01-01 10:00:00") .absent).mpr (Or.inl (by decide))⟩

/-- Claim C10 (confirmed): both copies of `save_transaction` perform all
validation before any filesystem access, so on an `InvalidOrder` failure
the backing store is returned unchanged — no file created, no header
written, no record appended. -/
theorem save_transaction_atomic_on_error :
    ∀ calcT cname items pay ts store e,
      (save_transaction_with calcT cname items pay ts store).2 = .error e →
      (save_transaction_with calcT cname items pay ts store).1 = store := by
  intro calcT cname items pay ts store e he
  unfold save_transaction_with at he ⊢
  by_cases h1 : pyStrip cname = []
  · rw [if_pos h1]
  by_cases h2 : items = []
  · rw [if_neg h1, if_pos h2]
  rw [if_neg h1, if_neg h2] at he
  cases hst : ensure_sales_file_has_header store <;> rw [hst] at he <;> cases he

/-- Witness for C10: saving with an empty customer name against an absent
store leaves the store absent. -/
theorem save_transaction_atomic_on_error_witness :
    (billing_core.save_transaction (S "") [⟨S "Latte", 1, 120⟩] (S "Cash")
      (S "2024-01-01 10:00:00") .absent).2 =
        .error (S "Customer name cannot be empty.") ∧
    (billing_core.save_transaction (S "") [⟨S "Latte", 1, 120⟩] (S "Cash")
      (S "2024-01-01 10:00:00") .absent).1 = .absent :=
  ⟨rfl, save_transaction_atomic_on_error billing_core.calculate_totals (S "")
    [⟨S "Latte", 1, 120⟩] (S "Cash") (S "2024-01-01 10:00:00") .absent
    (S "Customer name cannot be empty.") rfl⟩

/-- Claim C7 (confirmed): an absent or empty backing store yields the zero
summary `(0.00, 0.00, 0, "N/A")`, and otherwise a stored record is kept for
aggregation exactly when its `DateTime` field starts with today's
`YYYY-MM-DD` string (a malformed prefix simply fails the string-prefix
test and the record is excluded, with no error). -/
theorem daily_filtering :
    (∀ today, admin.daily_summary today .absent = (0, 0, 0, S "N/A")) ∧
    (∀ today, admin.daily_summary today .emptyFile = (0, 0, 0, S "N/A")) ∧
    (∀ today rows, admin.load_todays_transactions today (.withHeader rows) =
      rows.filter (fun r => today.isPrefixOf r.dateTime)) :=
  ⟨fun _ => rfl, fun _ => rfl, fun _ _ => rfl⟩

/-! ## Lemmas about the counter and the decoder (towards C9, C4, C2, C3) -/

/-- Every key of `counterAdd c k v` is `k` or a key of `c`. -/
theorem mem_counterAdd_fst (c : List (List Char × Int)) (k : List Char) (v : Int) :
    ∀ p ∈ admin.counterAdd c k v, p.1 = k ∨ p.1 ∈ c.map Prod.fst := by
  induction c with
  | nil =>
    intro p hp
    simp only [admin.counterAdd, List.mem_singleton] at hp
    subst hp
    exact Or.inl rfl
  | cons a rest ih =>
    intro p hp
    simp only [admin.counterAdd] at hp
    split at hp
    · rcases List.mem_cons.mp hp with h | h
      · subst h
        rename_i hk
        exact Or.inl hk
      · exact Or.inr (List.mem_map_of_mem Prod.fst (List.mem_cons_of_mem a h))
    · rcases List.mem_cons.mp hp with h | h
      · subst h
        exact Or.inr (List.mem_map_of_mem Prod.fst (List.mem_cons_self a rest))
      · rcases ih p h with h2 | h2
        · exact Or.inl h2
        · rcases List.mem_map.mp h2 with ⟨q, hq, hq2⟩
          exact Or.inr (List.mem_map.mpr ⟨q, List.mem_cons_of_mem a hq, hq2⟩)

/-- `processSegment` only ever adds a non-empty name to the counter. -/
theorem processSegment_keys_ne_nil (c : List (List Char × Int)) (part : List Char)
    (h : ∀ p ∈ c, p.1 ≠ []) :
    ∀ p ∈ admin.processSegment c part, p.1 ≠ [] := by
  intro p hp
  simp only [admin.processSegment] at hp
  split at hp
  · exact h p hp
  · split at hp
    · exact h p hp
    · rename_i hkey
      rcases mem_counterAdd_fst c _ _ p hp with h2 | h2
      · rw [h2]
        exact hkey
      · rcases List.mem_map.mp h2 with ⟨q, hq, hq2⟩
        rw [← hq2]
        exact h q hq

/-- Key non-emptiness is preserved across the decoding fold. -/
theorem foldl_processSegment_keys_ne_nil (parts : List (List Char))
    (c : List (List Char × Int)) (h : ∀ p ∈ c, p.1 ≠ []) :
    ∀ p ∈ parts.foldl admin.processSegment c, p.1 ≠ [] := by
  induction parts generalizing c with
  | nil => exact h
  | cons a rest ih =>
    rw [List.foldl_cons]
    exact ih (admin.processSegment c a) (processSegment_keys_ne_nil c a h)

/-- Claim C9 (amended): every key of the mapping returned by
`_parse_ordered_items` is a non-empty string (the decoder's guard only
tallies non-empty names).  However no segment actually produces an empty
trimmed name: a segment such as `" x2"` is stripped to `"x2"` *before* the
`" x"` test, so it is parsed as the name `"x2"` with quantity 1 rather
than being dropped. -/
theorem parse_keys_nonempty (s : List Char) :
    ∀ p ∈ admin.parse_ordered_items s, p.1 ≠ [] := by
  unfold admin.parse_ordered_items
  split
  · intro p hp
    cases hp
  · exact foldl_processSegment_keys_ne_nil _ [] (by intro p hp; cases hp)

/-- Witness for C9 at a concrete decode. -/
theorem parse_keys_nonempty_witness :
    (S "Latte", (2 : Int)) ∈ admin.parse_ordered_items (S "Latte x2") ∧
    S "Latte" ≠ [] :=
  ⟨by decide, parse_keys_nonempty (S "Latte x2") (S "Latte", 2) (by decide)⟩

/-- Counterexample for C9 as stated: the segment `" x2"` is *not* dropped —
after stripping it contains no `" x"`, so it contributes the key `"x2"`
with quantity 1. -/
theorem parse_quantity_only_segment_cex :
    admin.parse_ordered_items (S " x2") = [(S "x2", 1)] ∧
    admin.parse_ordered_items (S " x2") ≠ [] := by
  exact ⟨by decide, by decide⟩

/-- Stripping a whitespace-only string gives the empty string. -/
theorem pyStrip_eq_nil_of_ws (s : List Char) (h : ∀ c ∈ s, isWS c = true) :
    pyStrip s = [] := by
  unfold pyStrip
  rw [List.dropWhile_eq_nil_iff.mpr h]
  rfl

/-- Splitting a string that does not contain the separator gives one part. -/
theorem splitChar_of_not_mem (sep : Char) (s : List Char) (h : sep ∉ s) :
    splitChar sep s = [s] := by
  induction s with
  | nil => rfl
  | cons a rest ih =>
    have ha : a ≠ sep := fun he => h (he ▸ List.mem_cons_self a rest)
    have hrest : sep ∉ rest := fun hm => h (List.mem_cons_of_mem a hm)
    rw [splitChar, ih hrest]
    show (if a = sep then [] :: rest :: [] else (a :: rest) :: []) = [a :: rest]
    rw [if_neg ha]

/-- `splitChar` never returns an empty list of parts. -/
theorem splitChar_ne_nil (sep : Char) (s : List Char) : splitChar sep s ≠ [] := by
  cases s with
  | nil => simp [splitChar]
  | cons a rest =>
    rw [splitChar]
    split
    · simp
    · split <;> simp

/-- Claim C4 (confirmed): the decoder is total and lenient — empty or
whitespace-only input decodes to the empty mapping; a segment is split on
the *last* `" x"` into name and quantity text, a failed integer parse
defaults the quantity to 1, and a segment without `" x"` is a bare name
with quantity 1; concretely `""` decodes to `{}`, `"Samosa"` to
`{"Samosa": 1}` and `"Samosa xabc"` to `{"Samosa": 1}`. -/
theorem parse_ordered_items_lenient_decode :
    (∀ s, (∀ c ∈ s, isWS c = true) → admin.parse_ordered_items s = []) ∧
    admin.parse_ordered_items (S "") = [] ∧
    admin.parse_ordered_items (S "Samosa") = [(S "Samosa", 1)] ∧
    admin.parse_ordered_items (S "Samosa xabc") = [(S "Samosa", 1)] ∧
    (∀ c part n q, rsplit1 (S " x") (pyStrip part) = some (n, q) →
      pyStrip n ≠ [] →
      admin.processSegment c part =
        admin.counterAdd c (pyStrip n) ((pyInt? q).getD 1)) ∧
    (∀ c part, pyStrip part ≠ [] → rsplit1 (S " x") (pyStrip part) = none →
      admin.processSegment c part = admin.counterAdd c (pyStrip part) 1) := by
  refine ⟨?_, by decide, by decide, by decide, ?_, ?_⟩
  · intro s hws
    by_cases h0 : s = []
    · rw [h0]
      rfl
    have hsemi : ';' ∉ s := by
      intro hm
      have := hws ';' hm
      simp [isWS] at this
    rw [admin.parse_ordered_items, if_neg h0, splitChar_of_not_mem ';' s hsemi,
      List.foldl_cons, List.foldl_nil]
    simp only [admin.processSegment]
    rw [if_pos (pyStrip_eq_nil_of_ws s hws)]
  · intro c part n q hr hn
    have hne : pyStrip part ≠ [] := by
      intro h0
      rw [h0] at hr
      cases hr
    simp only [admin.processSegment]
    rw [if_neg hne, hr]
    simp only [if_neg hn]
  · intro c part hne hr
    simp only [admin.processSegment]
    rw [if_neg hne, hr]
    simp only [if_neg hne]

/-- Witness for C4 on a whitespace-only and a segment-level input. -/
theorem parse_ordered_items_lenient_decode_witness :
    (∀ c ∈ S "  ", isWS c = true) ∧ admin.parse_ordered_items (S "  ") = [] ∧
    (pyStrip (S "Masala Tea") ≠ [] ∧
      rsplit1 (S " x") (pyStrip (S "Masala Tea")) = none ∧
      admin.processSegment [] (S "Masala Tea") =
        admin.counterAdd [] (pyStrip (S "Masala Tea")) 1) :=
  ⟨by decide, parse_ordered_items_lenient_decode.1 (S "  ") (by decide),
   by decide, by decide,
   parse_ordered_items_lenient_decode.2.2.2.2.2 [] (S "Masala Tea")
     (by decide) (by decide)⟩

/-! ## Claim C3: mode selection of the most sold item -/

/-- `maxFirst l best` keeps `best` when nothing in `l` strictly exceeds it,
and otherwise returns the first element of `l` that is strictly greater
than `best` and at least as large as everything after it (with everything
before it strictly smaller). -/
theorem maxFirst_spec (l : List (List Char × Int)) (best : List Char × Int) :
    (admin.maxFirst l best = best ∧ ∀ p ∈ l, p.2 ≤ best.2) ∨
    (∃ pre q suf, l = pre ++ q :: suf ∧ admin.maxFirst l best = q ∧
      best.2 < q.2 ∧ (∀ p ∈ pre, p.2 < q.2) ∧ (∀ p ∈ suf, p.2 ≤ q.2)) := by
  induction l generalizing best with
  | nil => exact Or.inl ⟨rfl, by intro p hp; cases hp⟩
  | cons a rest ih =>
    have hstep : admin.maxFirst (a :: rest) best =
        admin.maxFirst rest (if best.2 < a.2 then a else best) := rfl
    rw [hstep]
    by_cases hc : best.2 < a.2
    · rw [if_pos hc]
      rcases ih a with ⟨heq, hall⟩ | ⟨pre, q, suf, hsplit, heq, hlt, hpre, hsuf⟩
      · exact Or.inr ⟨[], a, rest, rfl, heq, hc,
          fun p hp => absurd hp (List.not_mem_nil p), hall⟩
      · refine Or.inr ⟨a :: pre, q, suf, by rw [hsplit]; simp, heq,
          lt_trans hc hlt, ?_, hsuf⟩
        intro p hp
        rcases List.mem_cons.mp hp with h | h
        · rw [h]
          exact hlt
        · exact hpre p h
    · rw [if_neg hc]
      rcases ih best with ⟨heq, hall⟩ | ⟨pre, q, suf, hsplit, heq, hlt, hpre, hsuf⟩
      · refine Or.inl ⟨heq, ?_⟩
        intro p hp
        rcases List.mem_cons.mp hp with h | h
        · rw [h]
          exact not_lt.mp hc
        · exact hall p h
      · refine Or.inr ⟨a :: pre, q, suf, by rw [hsplit]; simp, heq, hlt, ?_, hsuf⟩
        intro p hp
        rcases List.mem_cons.mp hp with h | h
        · rw [h]
          exact lt_of_le_of_lt (not_lt.mp hc) hlt
        · exact hpre p h

/-- `mostCommon1` returns the first key attaining the maximum count. -/
theorem mostCommon1_spec (c : List (List Char × Int)) (hc : c ≠ []) :
    ∃ pre v suf, c = pre ++ (admin.mostCommon1 c, v) :: suf ∧
      (∀ p ∈ pre, p.2 < v) ∧ (∀ p ∈ suf, p.2 ≤ v) := by
  cases c with
  | nil => exact absurd rfl hc
  | cons e rest =>
    have h1 : admin.mostCommon1 (e :: rest) = (admin.maxFirst rest e).1 := rfl
    rcases maxFirst_spec rest e with ⟨heq, hall⟩ |
      ⟨pre, q, suf, hsplit, heq, hlt, hpre, hsuf⟩
    · refine ⟨[], e.2, rest, ?_, fun p hp => absurd hp (List.not_mem_nil p), hall⟩
      rw [h1, heq]
      simp
    · refine ⟨e :: pre, q.2, suf, ?_, ?_, hsuf⟩
      · rw [h1, heq, hsplit]
        simp
      · intro p hp
        rcases List.mem_cons.mp hp with h | h
        · rw [h]
          exact hlt
        · exact hpre p h

/-- Claim C3 (confirmed): `top_item` is a name whose summed quantity over
all kept records is at least every other name's, every name tallied
*before* it has a strictly smaller summed quantity (the stable
insertion-order tie-break: the first-encountered name among the tied
maxima wins), and when no items were tallied `top_item` is `"N/A"`. -/
theorem top_item_mode_selection (rows : List SalesRow) :
    (admin.dayTally rows = [] →
      (admin.compute_daily_summary rows).2.2.2 = S "N/A") ∧
    (admin.dayTally rows ≠ [] →
      ∃ pre v suf, admin.dayTally rows =
        pre ++ ((admin.compute_daily_summary rows).2.2.2, v) :: suf ∧
        (∀ p ∈ pre, p.2 < v) ∧ (∀ p ∈ suf, p.2 ≤ v)) := by
  constructor
  · intro hc
    by_cases h0 : rows = []
    · rw [h0]
      rfl
    · unfold admin.compute_daily_summary
      rw [if_neg h0]
      show (if admin.dayTally rows = [] then S "N/A"
        else admin.mostCommon1 (admin.dayTally rows)) = S "N/A"
      rw [if_pos hc]
  · intro hc
    by_cases h0 : rows = []
    · exact absurd (by rw [h0]; rfl) hc
    · have htop : (admin.compute_daily_summary rows).2.2.2 =
          admin.mostCommon1 (admin.dayTally rows) := by
        unfold admin.compute_daily_summary
        rw [if_neg h0]
        show (if admin.dayTally rows = [] then S "N/A"
          else admin.mostCommon1 (admin.dayTally rows)) = _
        rw [if_neg hc]
      rw [htop]
      exact mostCommon1_spec (admin.dayTally rows) hc

/-- Witness for C3 at a concrete tie (Latte 3, Vada pav 3): the first
encountered name, Latte, is selected. -/
theorem top_item_mode_selection_witness :
    admin.dayTally tieRows ≠ [] ∧
    (∃ pre v suf, admin.dayTally tieRows =
      pre ++ ((admin.compute_daily_summary tieRows).2.2.2, v) :: suf ∧
      (∀ p ∈ pre, p.2 < v) ∧ (∀ p ∈ suf, p.2 ≤ v)) :=
  ⟨by decide, (top_item_mode_selection tieRows).2 (by decide)⟩

/-! ## Claim C5: partial-failure tolerance of aggregation -/

/-- An unparseable field leaves the accumulator unchanged. -/
theorem addField_none (a : ℚ) (s : List Char) (h : pyFloat? s = none) :
    admin.addField a s = a := by
  unfold admin.addField
  by_cases h0 : s = []
  · rw [if_pos h0]
  · rw [if_neg h0, h]

/-- A parseable non-empty field adds its value to the accumulator. -/
theorem addField_some (a : ℚ) (s : List Char) (v : ℚ) (h0 : s ≠ [])
    (h : pyFloat? s = some v) : admin.addField a s = a + v := by
  unfold admin.addField
  rw [if_neg h0, h]

/-- The sales accumulator of the summary fold only reads `FinalTotal`. -/
theorem foldl_summaryStep_sales (rows : List SalesRow)
    (st : ℚ × ℚ × List (List Char × Int)) :
    (rows.foldl admin.summaryStep st).1 =
      rows.foldl (fun a r => admin.addField a r.finalTotalField) st.1 := by
  induction rows generalizing st with
  | nil => rfl
  | cons r rest ih =>
    rw [List.foldl_cons, List.foldl_cons, ih]
    rfl

/-- The GST accumulator of the summary fold only reads `GST`. -/
theorem foldl_summaryStep_gst (rows : List SalesRow)
    (st : ℚ × ℚ × List (List Char × Int)) :
    (rows.foldl admin.summaryStep st).2.1 =
      rows.foldl (fun a r => admin.addField a r.gstField) st.2.1 := by
  induction rows generalizing st with
  | nil => rfl
  | cons r rest ih =>
    rw [List.foldl_cons, List.foldl_cons, ih]
    rfl

/-- Claim C5 (confirmed): `compute_daily_summary` is total; a `FinalTotal`
or `GST` field that fails numeric parsing is skipped, leaving the
corresponding accumulator unchanged; three same-day rows with `FinalTotal`
283.50, 100.00 and 50.00, one with GST `"abc"`, yield
`total_sales = 433.50` (and the malformed GST contributes zero). -/
theorem daily_summary_partial_failure :
    (∀ st row, pyFloat? row.finalTotalField = none →
      (admin.summaryStep st row).1 = st.1) ∧
    (∀ st row, pyFloat? row.gstField = none →
      (admin.summaryStep st row).2.1 = st.2.1) ∧
    (admin.compute_daily_summary c5rows).1 = 4335 / 10 ∧
    (admin.compute_daily_summary c5rows).2.1 = 1588 / 100 := by
  have hf1 : pyFloat? (S "283.50") = some ((28350 : ℚ) / 100) := by
    rw [pyFloat?,
      show pyFloatParts? (S "283.50") = some ((28350 : ℤ), (100 : ℕ)) from by decide]
    simp only [Option.map_some', Option.some.injEq]
    norm_num
  have hf2 : pyFloat? (S "100.00") = some ((10000 : ℚ) / 100) := by
    rw [pyFloat?,
      show pyFloatParts? (S "100.00") = some ((10000 : ℤ), (100 : ℕ)) from by decide]
    simp only [Option.map_some', Option.some.injEq]
    norm_num
  have hf3 : pyFloat? (S "50.00") = some ((5000 : ℚ) / 100) := by
    rw [pyFloat?,
      show pyFloatParts? (S "50.00") = some ((5000 : ℤ), (100 : ℕ)) from by decide]
    simp only [Option.map_some', Option.some.injEq]
    norm_num
  have hg1 : pyFloat? (S "13.50") = some ((1350 : ℚ) / 100) := by
    rw [pyFloat?,
      show pyFloatParts? (S "13.50") = some ((1350 : ℤ), (100 : ℕ)) from by decide]
    simp only [Option.map_some', Option.some.injEq]
    norm_num
  have hg3 : pyFloat? (S "2.38") = some ((238 : ℚ) / 100) := by
    rw [pyFloat?,
      show pyFloatParts? (S "2.38") = some ((238 : ℤ), (100 : ℕ)) from by decide]
    simp only [Option.map_some', Option.some.injEq]
    norm_num
  refine ⟨?_, ?_, ?_, ?_⟩
  · intro st row h
    exact addField_none st.1 row.finalTotalField h
  · intro st row h
    exact addField_none st.2.1 row.gstField h
  · unfold admin.compute_daily_summary
    rw [if_neg (show c5rows ≠ [] from by decide)]
    show pyRound2 ((c5rows.foldl admin.summaryStep
      ((0 : ℚ), (0 : ℚ), ([] : List (List Char × Int)))).1) = 4335 / 10
    rw [foldl_summaryStep_sales]
    show pyRound2 (admin.addField (admin.addField (admin.addField 0
      (S "283.50")) (S "100.00")) (S "50.00")) = 4335 / 10
    rw [addField_some _ _ _ (by decide) hf1, addField_some _ _ _ (by decide) hf2,
      addField_some _ _ _ (by decide) hf3,
      pyRound2_eq_of_bounds _ 43350 (by norm_num) (by norm_num)]
    norm_num
  · unfold admin.compute_daily_summary
    rw [if_neg (show c5rows ≠ [] from by decide)]
    show pyRound2 ((c5rows.foldl admin.summaryStep
      ((0 : ℚ), (0 : ℚ), ([] : List (List Char × Int)))).2.1) = 1588 / 100
    rw [foldl_summaryStep_gst]
    show pyRound2 (admin.addField (admin.addField (admin.addField 0
      (S "13.50")) (S "abc")) (S "2.38")) = 1588 / 100
    rw [addField_some _ _ _ (by decide) hg1,
      addField_none _ (S "abc") (by decide), addField_some _ _ _ (by decide) hg3,
      pyRound2_eq_of_bounds _ 1588 (by norm_num) (by norm_num)]
    norm_num

/-- Witness for C5: a row with unparseable numeric fields leaves both
accumulators unchanged. -/
theorem daily_summary_partial_failure_witness :
    pyFloat? badRow.finalTotalField = none ∧
    pyFloat? badRow.gstField = none ∧
    (admin.summaryStep (0, 0, []) badRow).1 = 0 ∧
    (admin.summaryStep (0, 0, []) badRow).2.1 = 0 :=
  ⟨by decide, by decide,
   daily_summary_partial_failure.1 (0, 0, []) badRow (by decide),
   daily_summary_partial_failure.2.1 (0, 0, []) badRow (by decide)⟩

/-! ## Claim C2: round trip of the item-list codec -/

/-- The digit-accumulator is independent of what is already pushed. -/
theorem natToCharsAux_append (n : Nat) :
    ∀ acc, natToCharsAux n acc = natToCharsAux n [] ++ acc := by
  induction n using Nat.strong_induction_on with
  | _ n ih =>
    intro acc
    by_cases h : n = 0
    · subst h
      unfold natToCharsAux
      simp
    · have hlt : n / 10 < n := Nat.div_lt_self (Nat.pos_of_ne_zero h) (by norm_num)
      rw [natToCharsAux, dif_neg h, ih (n / 10) hlt (digitChar (n % 10) :: acc)]
      conv_rhs => rw [natToCharsAux, dif_neg h, ih (n / 10) hlt [digitChar (n % 10)]]
      simp

/-- Digit characters are digits. -/
theorem digitChar_isDigit (d : Nat) (h : d < 10) : (digitChar d).isDigit = true := by
  interval_cases d <;> decide

/-- Reading back a digit character gives its value. -/
theorem digitVal_digitChar (d : Nat) (h : d < 10) : digitVal (digitChar d) = d := by
  interval_cases d <;> decide

/-- Every character written for a positive number is a digit. -/
theorem natToCharsAux_digits (n : Nat) :
    ∀ c ∈ natToCharsAux n [], c.isDigit = true := by
  induction n using Nat.strong_induction_on with
  | _ n ih =>
    intro c hc
    by_cases h : n = 0
    · subst h
      rw [natToCharsAux, dif_pos rfl] at hc
      cases hc
    · have hlt : n / 10 < n := Nat.div_lt_self (Nat.pos_of_ne_zero h) (by norm_num)
      rw [natToCharsAux, dif_neg h, natToCharsAux_append] at hc
      rcases List.mem_append.mp hc with h2 | h2
      · exact ih (n / 10) hlt c h2
      · rcases List.mem_singleton.mp h2 with rfl
        exact digitChar_isDigit (n % 10) (Nat.mod_lt n (by norm_num))

/-- `str(n)` is never empty. -/
theorem natToChars_ne_nil (n : Nat) : natToChars n ≠ [] := by
  unfold natToChars
  by_cases h : n = 0
  · rw [if_pos h]
    simp
  · rw [if_neg h, natToCharsAux, dif_neg h, natToCharsAux_append]
    simp

/-- Every character of `str(n)` is a digit. -/
theorem natToChars_digits (n : Nat) : ∀ c ∈ natToChars n, c.isDigit = true := by
  unfold natToChars
  by_cases h : n = 0
  · rw [if_pos h]
    intro c hc
    rcases List.mem_singleton.mp hc with rfl
    decide
  · rw [if_neg h]
    exact natToCharsAux_digits n

/-- Appending one digit multiplies the value by ten and adds the digit. -/
theorem digitsVal_append_singleton (xs : List Char) (c : Char) :
    digitsVal (xs ++ [c]) = digitsVal xs * 10 + digitVal c := by
  unfold digitsVal
  rw [List.foldl_append]
  rfl

/-- Reading back the decimal representation gives the number. -/
theorem digitsVal_natToChars (n : Nat) : digitsVal (natToChars n) = n := by
  unfold natToChars
  by_cases h : n = 0
  · rw [if_pos h, h]
    decide
  · rw [if_neg h]
    induction n using Nat.strong_induction_on with
    | _ n ih =>
      rw [natToCharsAux, dif_neg h, natToCharsAux_append, digitsVal_append_singleton,
        digitVal_digitChar (n % 10) (Nat.mod_lt n (by norm_num))]
      by_cases h10 : n / 10 = 0
      · rw [h10]
        have hn10 : n < 10 := (Nat.div_eq_zero_iff (by norm_num)).mp h10
        have haux : natToCharsAux 0 [] = [] := by
          rw [natToCharsAux, dif_pos rfl]
        rw [haux]
        have hval : digitsVal [] = 0 := rfl
        rw [hval]
        omega
      · have hlt : n / 10 < n := Nat.div_lt_self (Nat.pos_of_ne_zero h) (by norm_num)
        rw [ih (n / 10) hlt h10]
        omega

/-- Parsing the decimal representation succeeds with the original number. -/
theorem parseDigits_natToChars (n : Nat) : parseDigits (natToChars n) = some n := by
  unfold parseDigits
  rw [if_pos ⟨natToChars_ne_nil n, List.all_eq_true.mpr (natToChars_digits n)⟩,
    digitsVal_natToChars]

/-- A digit character is not whitespace. -/
theorem not_ws_of_isDigit (c : Char) (h : c.isDigit = true) : isWS c = false := by
  unfold isWS
  cases hw : c.isWhitespace
  · rfl
  · exfalso
    simp [Char.isWhitespace] at hw
    rcases hw with ((rfl | rfl) | rfl) | rfl <;> simp [Char.isDigit] at h

/-- A digit character is not a space, a semicolon or a sign. -/
theorem isDigit_ne (c : Char) (h : c.isDigit = true) :
    c ≠ ' ' ∧ c ≠ ';' ∧ c ≠ '-' ∧ c ≠ '+' := by
  refine ⟨?_, ?_, ?_, ?_⟩ <;> rintro rfl <;> simp [Char.isDigit] at h

/-- Dropping leading whitespace skips over an all-whitespace prefix. -/
theorem dropWhile_ws_append (w l : List Char) (hw : ∀ c ∈ w, isWS c = true) :
    (w ++ l).dropWhile isWS = l.dropWhile isWS := by
  induction w with
  | nil => rfl
  | cons a rest ih =>
    rw [List.cons_append, List.dropWhile_cons,
      if_pos (by rw [hw a (List.mem_cons_self a rest)])]
    exact ih (fun c hc => hw c (List.mem_cons_of_mem a hc))

/-- `dropWhile` keeps a list whose head fails the predicate. -/
theorem dropWhile_cons_of_neg (a : Char) (l : List Char) (h : isWS a = false) :
    (a :: l).dropWhile isWS = a :: l := by
  rw [List.dropWhile_cons, if_neg (by simp [h])]

/-- A string equal to its own strip has no leading or trailing whitespace. -/
theorem dropWhile_facts_of_pyStrip_eq (s : List Char) (h : pyStrip s = s) :
    s.dropWhile isWS = s ∧ s.reverse.dropWhile isWS = s.reverse := by
  have h1 : (s.dropWhile isWS).length ≤ s.length :=
    (List.dropWhile_suffix isWS).length_le
  have h2 : ((s.dropWhile isWS).reverse.dropWhile isWS).length ≤
      (s.dropWhile isWS).length := by
    have := (List.dropWhile_suffix (l := (s.dropWhile isWS).reverse) isWS).length_le
    simpa using this
  have hlen : (pyStrip s).length = s.length := by rw [h]
  unfold pyStrip at hlen
  rw [List.length_reverse] at hlen
  have e1 : (s.dropWhile isWS).length = s.length := by omega
  have hd : s.dropWhile isWS = s := (List.dropWhile_suffix isWS).eq_of_length e1
  refine ⟨hd, ?_⟩
  have e2 : ((s.dropWhile isWS).reverse.dropWhile isWS).length =
      (s.dropWhile isWS).reverse.length := by
    rw [List.length_reverse]
    omega
  have := (List.dropWhile_suffix
    (l := (s.dropWhile isWS).reverse) isWS).eq_of_length e2
  rw [hd] at this
  exact this

/-- Stripping an all-whitespace prefix off a string whose core starts and
ends in non-whitespace gives back the core. -/
theorem pyStrip_ws_prefix (w core : List Char) (hw : ∀ c ∈ w, isWS c = true)
    (h1 : core.dropWhile isWS = core) (h2 : core.reverse.dropWhile isWS = core.reverse) :
    pyStrip (w ++ core) = core := by
  unfold pyStrip
  rw [dropWhile_ws_append w core hw, h1, h2, List.reverse_reverse]

/-- A string without a space contains no occurrence of `" x"`. -/
theorem rsplit1_none_of_no_space (zs : List Char) (h : ∀ c ∈ zs, c ≠ ' ') :
    rsplit1 [' ', 'x'] zs = none := by
  induction zs with
  | nil => rfl
  | cons a rest ih =>
    rw [rsplit1, ih (fun c hc => h c (List.mem_cons_of_mem a hc))]
    have ha : (' ' == a) = false :=
      beq_eq_false_iff_ne.mpr (Ne.symm (h a (List.mem_cons_self a rest)))
    simp [List.isPrefixOf, ha]

/-- `rsplit(" x", 1)` splits off the final quantity when the tail holds no
further space. -/
theorem rsplit1_append (xs ys : List Char) (h : ∀ c ∈ ys, c ≠ ' ') :
    rsplit1 [' ', 'x'] (xs ++ ' ' :: 'x' :: ys) = some (xs, ys) := by
  induction xs with
  | nil =>
    have hx : rsplit1 [' ', 'x'] ('x' :: ys) = none := by
      rw [rsplit1, rsplit1_none_of_no_space ys h]
      simp [List.isPrefixOf]
    rw [List.nil_append, rsplit1, hx]
    simp [List.isPrefixOf]
  | cons a xs ih =>
    rw [List.cons_append, rsplit1, ih]

/-- Splitting on `";"` peels off a `";"`-free prefix. -/
theorem splitChar_append (sep : Char) (xs ys : List Char) (h : sep ∉ xs) :
    splitChar sep (xs ++ sep :: ys) = xs :: splitChar sep ys := by
  induction xs with
  | nil =>
    rcases hsp : splitChar sep ys with _ | ⟨p, t⟩
    · exact absurd hsp (splitChar_ne_nil sep ys)
    · rw [List.nil_append, splitChar, hsp]
      show (if sep = sep then [] :: p :: t else (sep :: p) :: t) = [] :: p :: t
      rw [if_pos rfl]
  | cons a xs ih =>
    have ha : a ≠ sep := fun he => h (he ▸ List.mem_cons_self a xs)
    have hxs : sep ∉ xs := fun hm => h (List.mem_cons_of_mem a hm)
    rw [List.cons_append, splitChar, ih hxs]
    show (if a = sep then [] :: xs :: splitChar sep ys
      else (a :: xs) :: splitChar sep ys) = (a :: xs) :: splitChar sep ys
    rw [if_neg ha]

/-- `dropWhile` is the identity on whitespace-free strings. -/
theorem dropWhile_eq_self_of_all_not (l : List Char)
    (h : ∀ c ∈ l, isWS c = false) : l.dropWhile isWS = l := by
  cases l with
  | nil => rfl
  | cons a rest => exact dropWhile_cons_of_neg a rest (h a (List.mem_cons_self a rest))

/-- `strip` is the identity on whitespace-free strings. -/
theorem pyStrip_eq_self_of_all_not (l : List Char)
    (h : ∀ c ∈ l, isWS c = false) : pyStrip l = l := by
  unfold pyStrip
  rw [dropWhile_eq_self_of_all_not l h,
    dropWhile_eq_self_of_all_not l.reverse (fun c hc => h c (List.mem_reverse.mp hc)),
    List.reverse_reverse]

/-- A kept head under `dropWhile` is not whitespace. -/
theorem head_not_ws (a : Char) (l : List Char)
    (h : (a :: l).dropWhile isWS = a :: l) : isWS a = false := by
  cases hws : isWS a
  · rfl
  · exfalso
    rw [List.dropWhile_cons, if_pos (by simp [hws])] at h
    have hlen := congrArg List.length h
    have hle := (List.dropWhile_suffix (l := l) isWS).length_le
    simp at hlen
    omega

/-- Parsing `str(n)` with `int(...)` returns `n`. -/
theorem pyInt?_natToChars (m : Nat) : pyInt? (natToChars m) = some (m : Int) := by
  unfold pyInt?
  have hnws : ∀ c ∈ natToChars m, isWS c = false :=
    fun c hc => not_ws_of_isDigit c (natToChars_digits m c hc)
  rw [pyStrip_eq_self_of_all_not _ hnws]
  obtain ⟨c, rest, hc⟩ := List.exists_cons_of_ne_nil (natToChars_ne_nil m)
  have hcd : c.isDigit = true := natToChars_digits m c (by rw [hc]; exact List.mem_cons_self c rest)
  have hne := isDigit_ne c hcd
  rw [hc]
  rw [if_neg (by simp [hne.2.2.1]), if_neg (by simp [hne.2.2.2]), ← hc,
    parseDigits_natToChars]
  rfl

/-- Parsing `str(q)` with `int(...)` returns `q` for a positive quantity. -/
theorem pyInt?_intToChars_of_pos (q : Int) (hq : 1 ≤ q) :
    pyInt? (intToChars q) = some q := by
  unfold intToChars
  rw [if_neg (by omega), pyInt?_natToChars, Int.toNat_of_nonneg (by omega)]

/-- Applying the decoder's loop body to an (optionally space-prefixed)
encoded piece `"<name> x<quantity>"` tallies exactly that item. -/
theorem processSegment_piece (c : List (List Char × Int)) (nm : List Char)
    (q : Int) (w : List Char) (hw : ∀ ch ∈ w, isWS ch = true)
    (hname : nm ≠ []) (hstrip : pyStrip nm = nm) (hq : 1 ≤ q) :
    admin.processSegment c (w ++ (nm ++ S " x" ++ intToChars q)) =
      admin.counterAdd c nm q := by
  have hds2 : intToChars q = natToChars q.toNat := by
    unfold intToChars
    rw [if_neg (by omega)]
  have hdig : ∀ ch ∈ intToChars q, ch.isDigit = true := by
    rw [hds2]
    exact natToChars_digits q.toNat
  have hdne : intToChars q ≠ [] := by
    rw [hds2]
    exact natToChars_ne_nil q.toNat
  have hnospace : ∀ ch ∈ intToChars q, ch ≠ ' ' :=
    fun ch hc => (isDigit_ne ch (hdig ch hc)).1
  have hassoc : nm ++ S " x" ++ intToChars q = nm ++ ' ' :: 'x' :: intToChars q := by
    rw [show S " x" = [' ', 'x'] from rfl]
    simp
  rw [hassoc]
  obtain ⟨hd1, _⟩ := dropWhile_facts_of_pyStrip_eq nm hstrip
  obtain ⟨a, nm', hnm⟩ := List.exists_cons_of_ne_nil hname
  have h1 : (nm ++ ' ' :: 'x' :: intToChars q).dropWhile isWS =
      nm ++ ' ' :: 'x' :: intToChars q := by
    rw [hnm, List.cons_append]
    apply dropWhile_cons_of_neg
    rw [hnm] at hd1
    exact head_not_ws a nm' hd1
  have h2 : (nm ++ ' ' :: 'x' :: intToChars q).reverse.dropWhile isWS =
      (nm ++ ' ' :: 'x' :: intToChars q).reverse := by
    obtain ⟨d, ds', hrev⟩ := List.exists_cons_of_ne_nil
      (show (intToChars q).reverse ≠ [] by simpa using hdne)
    have hdmem : d ∈ intToChars q := by
      rw [← List.mem_reverse, hrev]
      exact List.mem_cons_self d ds'
    have hsh : (nm ++ ' ' :: 'x' :: intToChars q).reverse =
        d :: (ds' ++ ['x', ' '] ++ nm.reverse) := by
      rw [List.reverse_append]
      rw [show (' ' :: 'x' :: intToChars q).reverse =
        (intToChars q).reverse ++ ['x', ' '] from by simp, hrev]
      simp
    rw [hsh]
    exact dropWhile_cons_of_neg _ _ (not_ws_of_isDigit d (hdig d hdmem))
  have hstripfull : pyStrip (w ++ (nm ++ ' ' :: 'x' :: intToChars q)) =
      nm ++ ' ' :: 'x' :: intToChars q := pyStrip_ws_prefix w _ hw h1 h2
  have hr : rsplit1 (S " x") (pyStrip (w ++ (nm ++ ' ' :: 'x' :: intToChars q))) =
      some (nm, intToChars q) := by
    rw [hstripfull, show (S " x") = [' ', 'x'] from rfl]
    exact rsplit1_append nm (intToChars q) hnospace
  have hcne : nm ++ ' ' :: 'x' :: intToChars q ≠ [] := by
    rw [hnm]
    simp
  simp only [admin.processSegment]
  rw [if_neg (by rw [hstripfull]; exact hcne), hr]
  have hn : pyStrip nm ≠ [] := by
    rw [hstrip]
    exact hname
  simp only [if_neg hn]
  rw [hstrip, pyInt?_intToChars_of_pos q hq]
  rfl

/-- Decoding the encoded item list (with an optional leading space left by
the `"; "` join) tallies the items in order. -/
theorem decode_encode_fold : ∀ items : List OrderItem, items ≠ [] →
    (∀ i ∈ items, i.name ≠ [] ∧ pyStrip i.name = i.name ∧ ';' ∉ i.name ∧
      1 ≤ i.quantity) →
    ∀ (c : List (List Char × Int)) (w : List Char), w = [] ∨ w = [' '] →
    (splitChar ';' (w ++ joinSemi (orderItemParts items))).foldl
        admin.processSegment c =
      items.foldl (fun c2 i => admin.counterAdd c2 i.name i.quantity) c := by
  intro items
  induction items with
  | nil => exact fun hne => absurd rfl hne
  | cons i rest ih =>
    intro _ hgood c w hwor
    have hw : ∀ ch ∈ w, isWS ch = true := by
      rcases hwor with rfl | rfl
      · intro ch hc
        cases hc
      · intro ch hc
        rcases List.mem_singleton.mp hc with rfl
        decide
    have hgi := hgood i (List.mem_cons_self i rest)
    have hds2 : intToChars i.quantity = natToChars i.quantity.toNat := by
      unfold intToChars
      rw [if_neg (by have := hgi.2.2.2; omega)]
    have hnosemi : ';' ∉ w ++ (i.name ++ S " x" ++ intToChars i.quantity) := by
      intro hm
      rcases List.mem_append.mp hm with h | h
      · exact absurd (hw ';' h) (by decide)
      rcases List.mem_append.mp h with h2 | h2
      · rcases List.mem_append.mp h2 with h3 | h3
        · exact hgi.2.2.1 h3
        · exact absurd h3 (by decide)
      · rw [hds2] at h2
        exact absurd (natToChars_digits _ ';' h2) (by decide)
    cases rest with
    | nil =>
      have hjoin : joinSemi (orderItemParts [i]) =
          i.name ++ S " x" ++ intToChars i.quantity := rfl
      rw [hjoin, splitChar_of_not_mem ';' _ hnosemi, List.foldl_cons, List.foldl_nil,
        processSegment_piece c i.name i.quantity w hw hgi.1 hgi.2.1 hgi.2.2.2]
      rfl
    | cons j rest2 =>
      have hjoin : joinSemi (orderItemParts (i :: j :: rest2)) =
          (i.name ++ S " x" ++ intToChars i.quantity) ++
            ';' :: ' ' :: joinSemi (orderItemParts (j :: rest2)) := rfl
      rw [hjoin,
        show w ++ ((i.name ++ S " x" ++ intToChars i.quantity) ++
            ';' :: ' ' :: joinSemi (orderItemParts (j :: rest2))) =
          (w ++ (i.name ++ S " x" ++ intToChars i.quantity)) ++
            ';' :: ' ' :: joinSemi (orderItemParts (j :: rest2)) from by simp,
        splitChar_append ';' _ _ hnosemi, List.foldl_cons,
        processSegment_piece c i.name i.quantity w hw hgi.1 hgi.2.1 hgi.2.2.2]
      exact ih (by simp) (fun x hx => hgood x (List.mem_cons_of_mem i hx))
        (admin.counterAdd c i.name i.quantity) [' '] (Or.inr rfl)

/-- Claim C2 (amended): for every list of order items whose names are
non-empty, free of `";"` and free of leading and trailing whitespace (as
all menu item names are), encoding with `format_order_items` and then
decoding with `_parse_ordered_items` yields exactly the insertion-ordered
mapping from each item name to the sum of its quantities.  (Without these
conditions the round trip can fail: see the counterexample.) -/
theorem codec_round_trip_amended (items : List OrderItem)
    (hq : ∀ i ∈ items, 1 ≤ i.quantity)
    (hname : ∀ i ∈ items, i.name ≠ [] ∧ pyStrip i.name = i.name ∧ ';' ∉ i.name) :
    admin.parse_ordered_items (format_order_items items) =
      items.foldl (fun c i => admin.counterAdd c i.name i.quantity) [] := by
  cases items with
  | nil => rfl
  | cons i rest =>
    have hi := hname i (List.mem_cons_self i rest)
    obtain ⟨a, nm2, hnm⟩ := List.exists_cons_of_ne_nil hi.1
    have hne2 : format_order_items (i :: rest) ≠ [] := by
      cases rest with
      | nil =>
        show i.name ++ S " x" ++ intToChars i.quantity ≠ []
        rw [hnm]
        simp
      | cons j rest2 =>
        show (i.name ++ S " x" ++ intToChars i.quantity) ++
          ';' :: ' ' :: joinSemi (orderItemParts (j :: rest2)) ≠ []
        simp
    unfold admin.parse_ordered_items
    rw [if_neg hne2]
    exact decode_encode_fold (i :: rest) (by simp)
      (fun x hx => ⟨(hname x hx).1, (hname x hx).2.1, (hname x hx).2.2, hq x hx⟩)
      [] [] (Or.inl rfl)

/-- Witness for C2 at the spec's own round-trip example. -/
theorem codec_round_trip_amended_witness :
    (∀ i ∈ ([⟨S "Latte", 2, 120⟩, ⟨S "Vada pav", 1, 30⟩] : List OrderItem),
      1 ≤ i.quantity) ∧
    admin.parse_ordered_items (format_order_items
      [⟨S "Latte", 2, 120⟩, ⟨S "Vada pav", 1, 30⟩]) =
      [(S "Latte", 2), (S "Vada pav", 1)] := by
  refine ⟨by intro i hi; fin_cases hi <;> norm_num, ?_⟩
  rw [codec_round_trip_amended [⟨S "Latte", 2, 120⟩, ⟨S "Vada pav", 1, 30⟩]
    (by intro i hi; fin_cases hi <;> norm_num)
    (by intro i hi; fin_cases hi <;> exact ⟨by decide, by decide, by decide⟩)]
  decide

/-- Counterexample for C2 as stated: a name containing the separator
`";"` breaks the round trip — `[("a;b", 1)]` encodes to `"a;b x1"`, which
decodes to `{"a": 1, "b": 1}`, not `{"a;b": 1}`. -/
theorem codec_round_trip_cex :
    admin.parse_ordered_items (format_order_items [⟨S "a;b", 1, 0⟩]) =
      [(S "a", 1), (S "b", 1)] ∧
    (S "a;b", (1 : Int)) ∉
      admin.parse_ordered_items (format_order_items [⟨S "a;b", 1, 0⟩]) := by
  have h1 : intToChars 1 = ['1'] := by
    unfold intToChars
    rw [if_neg (by omega)]
    show natToChars (1 : Nat) = ['1']
    rw [natToChars, if_neg (by norm_num), natToCharsAux, dif_neg (by norm_num),
      show (1 : Nat) / 10 = 0 from rfl, show (1 : Nat) % 10 = 1 from rfl,
      natToCharsAux, dif_pos rfl]
    decide
  have h2 : format_order_items [⟨S "a;b", 1, 0⟩] = S "a;b x1" := by
    show S "a;b" ++ S " x" ++ intToChars 1 = S "a;b x1"
    rw [h1]
    decide
  rw [h2]
  exact ⟨by decide, by decide⟩

